import Mathlib

/-!
# Verification of `src/data_cleaning.py`

A shallow embedding of the sales-data cleaning pipeline. A pandas
`DataFrame` is modelled as a `Frame`: an ordered list of column names
together with a list of rows, each row a list of dynamically typed cell
values aligned positionally with the column names. Cell values are text,
rational numbers (modelling the numeric dtypes), or the missing-value
marker `NaN`.

Library calls (`str.strip`, `str.lower`, the regex replacement
`[^\w]+ -> _`, `pd.to_numeric(errors="coerce")`, `astype(str)`,
`dropna(subset=...)`, boolean-mask filtering) are modelled over ASCII
by executable functions; `pd.to_numeric` is modelled by a parser for
optionally signed decimal numerals with an optional fractional part,
anything else coercing to `NaN`.
-/

namespace DataCleaning

/-- A cell of a DataFrame: text, a number, or the missing-value marker. -/
inductive Value where
  | str : String → Value
  | num : Rat → Value
  | nan : Value
deriving DecidableEq

def Value.isStr : Value → Bool
  | .str _ => true
  | _ => false

def Value.isNum : Value → Bool
  | .num _ => true
  | _ => false

def Value.isNan : Value → Bool
  | .nan => true
  | _ => false

/-! ## Character and string helpers (Python `str` methods, ASCII model) -/

/-- Drop leading whitespace characters (the head loop of `str.strip`). -/
def dropWS : List Char → List Char
  | [] => []
  | c :: cs => if c.isWhitespace then dropWS cs else c :: cs

/-- `str.strip`: remove leading and trailing whitespace. -/
def trimChars (l : List Char) : List Char :=
  (dropWS ((dropWS l).reverse)).reverse

/-- `str.strip` on strings. -/
def trimStr (s : String) : String :=
  String.mk (trimChars s.toList)

/-- A regex word character `\w`, i.e. `[A-Za-z0-9_]` in the ASCII model. -/
def isWordChar (c : Char) : Bool :=
  c.isAlphanum || c = '_'

/-- Replace every maximal run of non-word characters by one `'_'`
(the regex substitution `[^\w]+ -> _`); the flag records whether we are
currently inside such a run. -/
def squashAux : Bool → List Char → List Char
  | _, [] => []
  | inRun, c :: cs =>
    if isWordChar c then c :: squashAux false cs
    else if inRun then squashAux true cs
    else '_' :: squashAux true cs

/-- The column-name normalisation of `clean_column_names`:
`.str.strip()`, then `.str.lower()`, then
`.str.replace(r"[^\w]+", "_", regex=True)`. -/
def normalizeName (s : String) : String :=
  String.mk (squashAux false ((trimChars s.toList).map Char.toLower))

/-- Leading-digit span: returns the maximal digit run and the rest. -/
def spanDigits : List Char → List Char × List Char
  | [] => ([], [])
  | c :: cs =>
    if c.isDigit then
      let p := spanDigits cs
      (c :: p.1, p.2)
    else ([], c :: cs)

/-- Numeric value of a digit run (most significant digit first). -/
def digitsToNat (l : List Char) : Nat :=
  l.foldl (fun a c => 10 * a + (c.toNat - 48)) 0

/-- Parse an unsigned decimal numeral, optionally with a fractional
part, e.g. `12`, `12.5`, `12.`, `.5`. -/
def parseUnsigned (l : List Char) : Option Rat :=
  let p := spanDigits l
  match p.2 with
  | [] => if p.1.isEmpty then none else some (digitsToNat p.1 : Rat)
  | '.' :: r2 =>
    let q := spanDigits r2
    if q.2.isEmpty && !(p.1.isEmpty && q.1.isEmpty) then
      some ((digitsToNat p.1 : Rat) + (digitsToNat q.1 : Rat) / (10 : Rat) ^ q.1.length)
    else none
  | _ => none

/-- Model of `pd.to_numeric` string parsing: surrounding whitespace is
ignored, an optional sign precedes an unsigned numeral. -/
def parseNum (s : String) : Option Rat :=
  match trimChars s.toList with
  | '-' :: rest => (parseUnsigned rest).map (fun q => -q)
  | '+' :: rest => parseUnsigned rest
  | l => parseUnsigned l

/-- `pd.to_numeric(·, errors="coerce")` on one cell: numbers and the
marker pass through, text parses or coerces to the marker. -/
def toNumeric : Value → Value
  | .str s =>
    match parseNum s with
    | some q => .num q
    | none => .nan
  | .num q => .num q
  | .nan => .nan

/-- `astype(str)` on one cell: the textual representation pandas gives,
with the missing-value marker rendering as the literal text `"nan"`. -/
def valToStr : Value → String
  | .str s => s
  | .num q => if q.den = 1 then toString q.num else toString q.num ++ "/" ++ toString q.den
  | .nan => "nan"

/-- One cell of `.astype(str).str.strip()`. -/
def stripCell (v : Value) : Value :=
  .str (trimStr (valToStr v))

/-- `series >= 0` on one cell: true exactly on non-negative numbers
(`NaN >= 0` is false in pandas). -/
def geZero : Value → Bool
  | .num q => decide (0 ≤ q)
  | _ => false

/-! ## Substring tests on column names -/

/-- Does the second list start with the first? -/
def isLead : List Char → List Char → Bool
  | [], _ => true
  | _ :: _, [] => false
  | a :: as, b :: bs => (a == b) && isLead as bs

/-- Does the first list occur inside the second? -/
def hasSub (p : List Char) : List Char → Bool
  | [] => isLead p []
  | b :: bs => isLead p (b :: bs) || hasSub p bs

/-- Python's `sub in s` on strings. -/
def containsSub (s sub : String) : Bool :=
  hasSub sub.toList s.toList

/-- `"price" in c`. -/
def isPriceName (c : String) : Bool :=
  containsSub c "price"

/-- `"qty" in c or "quantity" in c`. -/
def isQtyName (c : String) : Bool :=
  containsSub c "qty" || containsSub c "quantity"

/-- A column matched by either numeric-classification rule. -/
def isMatchedName (c : String) : Bool :=
  isPriceName c || isQtyName c

/-! ## Frames -/

/-- A pandas DataFrame: named columns and positionally aligned rows. -/
structure Frame where
  cols : List String
  rows : List (List Value)
deriving DecidableEq

def Frame.empty : Frame := ⟨[], []⟩

/-- Apply `f` to the cells of a row lying under a column name selected
by `q` (cells beyond the named columns are untouched). -/
def mapSel (q : String → Bool) (f : Value → Value) : List String → List Value → List Value
  | _, [] => []
  | [], vs => vs
  | c :: cs, v :: vs => (if q c then f v else v) :: mapSel q f cs vs

/-- Does every cell of a row lying under a column name selected by `q`
satisfy `p`? -/
def rowSel (q : String → Bool) (p : Value → Bool) : List String → List Value → Bool
  | _, [] => true
  | [], _ => true
  | c :: cs, v :: vs => (if q c then p v else true) && rowSel q p cs vs

/-- `df[name] = f(df[name])`: transform the cells of the column(s)
labelled `name`. -/
def setColF (f : Value → Value) (df : Frame) (name : String) : Frame :=
  { cols := df.cols, rows := df.rows.map (fun r => mapSel (fun c => c == name) f df.cols r) }

/-- `df[df[name] >= 0]`: keep the rows whose cells under `name` are
non-negative numbers. -/
def filterColGE (df : Frame) (name : String) : Frame :=
  { cols := df.cols, rows := df.rows.filter (fun r => rowSel (fun c => c == name) geZero df.cols r) }

/-- `df.dropna(subset=required)`: keep the rows with no missing marker
under any column label in `required`. -/
def dropnaSubset (df : Frame) (required : List String) : Frame :=
  { cols := df.cols,
    rows := df.rows.filter (fun r => rowSel (fun c => decide (c ∈ required)) (fun v => !v.isNan) df.cols r) }

/-! ## The four pipeline stages -/

/-- Stage 2, `clean_column_names`: copy the frame and normalise its
column labels. -/
def clean_column_names (df : Frame) : Frame :=
  { cols := df.cols.map normalizeName, rows := df.rows }

/-- `select_dtypes(include="object").columns`: the labels of columns
holding at least one text cell. -/
def objColNames (df : Frame) : List String :=
  (df.cols.enum.filter (fun p => (df.rows.map (fun r => r.getD p.1 .nan)).any Value.isStr)).map Prod.snd

/-- The columns `strip_text_columns` operates on: the explicit list if
given, otherwise the object-dtype columns. -/
def selNames (df : Frame) (text_columns : Option (List String)) : List String :=
  match text_columns with
  | some cs => cs
  | none => objColNames df

/-- Stage 3, `strip_text_columns`: for each selected column,
`df[col] = df[col].astype(str).str.strip()`. -/
def strip_text_columns (df : Frame) (text_columns : Option (List String)) : Frame :=
  (selNames df text_columns).foldl (setColF stripCell) df

/-- `[c for c in df.columns if "price" in c]`. -/
def priceColsOf (df : Frame) : List String :=
  df.cols.filter isPriceName

/-- `[c for c in df.columns if "qty" in c or "quantity" in c]`. -/
def qtyColsOf (df : Frame) : List String :=
  df.cols.filter isQtyName

/-- The coercion loop of `handle_missing_values`:
`for col in price_cols + qty_cols: df[col] = pd.to_numeric(df[col], errors="coerce")`. -/
def numericCoerce (df : Frame) : Frame :=
  (priceColsOf df ++ qtyColsOf df).foldl (setColF toNumeric) df

/-- Stage 4, `handle_missing_values`: coerce the matched columns to
numeric, then `dropna` on `list(set(price_cols + qty_cols))` when that
set is non-empty. -/
def handle_missing_values (df : Frame) : Frame :=
  let df1 := numericCoerce df
  let required := (priceColsOf df ++ qtyColsOf df).dedup
  if required.isEmpty then df1 else dropnaSubset df1 required

/-- Stage 5, `remove_invalid_rows`: successively keep the rows that are
non-negative in each price column, then in each quantity column. -/
def remove_invalid_rows (df : Frame) : Frame :=
  let price_cols := priceColsOf df
  let qty_cols := qtyColsOf df
  qty_cols.foldl filterColGE (price_cols.foldl filterColGE df)

/-- The in-memory part of the `__main__` pipeline: stages 2 to 5 in
order. -/
def clean_pipeline (df : Frame) : Frame :=
  remove_invalid_rows (handle_missing_values (strip_text_columns (clean_column_names df) none))

/-! ## A heap model of the Python-level aliasing

Python passes DataFrames by reference: each stage receives a reference
into a heap of frames, allocates a copy (`df_clean = df.copy()`), and
then performs a sequence of statements, each either an in-place
mutation of the frame currently bound to `df_clean`
(`df_clean[col] = ...`, `df_clean.columns = ...`) or a rebinding of
`df_clean` to a freshly allocated frame (`df_clean = df_clean.dropna(...)`,
`df_clean = df_clean[mask]`). The heap model makes the copy explicit so
that the no-input-mutation discipline of the source is a provable
statement rather than a modelling artefact. -/

/-- The heap of live DataFrames; references are list indices. -/
abbrev Heap := List Frame

/-- One statement of a stage body: an in-place mutation of the frame
bound to `df_clean`, or a rebinding of `df_clean` to a fresh frame. -/
inductive Op where
  | mutate : (Frame → Frame) → Op
  | rebind : (Frame → Frame) → Op

/-- Run a stage body on a heap and the reference currently bound to
`df_clean`. -/
def runOps : List Op → Heap × Nat → Heap × Nat
  | [], s => s
  | Op.mutate f :: ops, s =>
    runOps ops (s.1.set s.2 (f (s.1.getD s.2 Frame.empty)), s.2)
  | Op.rebind f :: ops, s =>
    runOps ops (s.1 ++ [f (s.1.getD s.2 Frame.empty)], s.1.length)

/-- The pure value computed by a stage body. -/
def applyOps : List Op → Frame → Frame
  | [], t => t
  | Op.mutate f :: ops, t => applyOps ops (f t)
  | Op.rebind f :: ops, t => applyOps ops (f t)

/-- A whole stage: `df_clean = df.copy()` (a fresh allocation holding
the same value), then the stage body, whose statements may depend on
the value of the copied frame; returns the heap and the reference the
stage returns. -/
def stageRef (ops : Frame → List Op) (h : Heap) (i : Nat) : Heap × Nat :=
  runOps (ops (h.getD i Frame.empty)) (h ++ [h.getD i Frame.empty], h.length)

/-- Body of `clean_column_names`: one in-place assignment to
`df_clean.columns`. -/
def cleanColumnNamesOps (_df : Frame) : List Op :=
  [Op.mutate (fun t => { cols := t.cols.map normalizeName, rows := t.rows })]

/-- Body of `strip_text_columns`: one in-place column assignment per
selected column. -/
def stripTextOps (df : Frame) (text_columns : Option (List String)) : List Op :=
  (selNames df text_columns).map (fun n => Op.mutate (fun t => setColF stripCell t n))

/-- Body of `handle_missing_values`: one in-place column assignment per
matched column, then (when some column matched) the rebinding
`df_clean = df_clean.dropna(subset=...)`. -/
def handleMissingOps (df : Frame) : List Op :=
  (priceColsOf df ++ qtyColsOf df).map (fun n => Op.mutate (fun t => setColF toNumeric t n))
    ++ (if ((priceColsOf df ++ qtyColsOf df).dedup).isEmpty then []
        else [Op.rebind (fun t => dropnaSubset t ((priceColsOf df ++ qtyColsOf df).dedup))])

/-- Body of `remove_invalid_rows`: one rebinding
`df_clean = df_clean[df_clean[col] >= 0]` per matched column. -/
def removeInvalidOps (df : Frame) : List Op :=
  (priceColsOf df).map (fun n => Op.rebind (fun t => filterColGE t n))
    ++ (qtyColsOf df).map (fun n => Op.rebind (fun t => filterColGE t n))

/-- `clean_column_names` acting on the heap. -/
def clean_column_names_ref (h : Heap) (i : Nat) : Heap × Nat :=
  stageRef cleanColumnNamesOps h i

/-- `strip_text_columns` acting on the heap. -/
def strip_text_columns_ref (h : Heap) (text_columns : Option (List String)) (i : Nat) :
    Heap × Nat :=
  stageRef (fun df => stripTextOps df text_columns) h i

/-- `handle_missing_values` acting on the heap. -/
def handle_missing_values_ref (h : Heap) (i : Nat) : Heap × Nat :=
  stageRef handleMissingOps h i

/-- `remove_invalid_rows` acting on the heap. -/
def remove_invalid_rows_ref (h : Heap) (i : Nat) : Heap × Nat :=
  stageRef removeInvalidOps h i

/-- The first character, if any, is not whitespace. -/
def noLeadWS : List Char → Bool
  | [] => true
  | c :: _ => !c.isWhitespace

/-! ## Lemmas on trimming -/

theorem noLeadWS_dropWS (l : List Char) : noLeadWS (dropWS l) = true := by
  induction l with
  | nil => rfl
  | cons c cs ih =>
    by_cases h : c.isWhitespace = true
    · simpa [dropWS, h] using ih
    · simp only [Bool.not_eq_true] at h
      simp [dropWS, h, noLeadWS]

theorem dropWS_of_noLead {l : List Char} (h : noLeadWS l = true) : dropWS l = l := by
  cases l with
  | nil => rfl
  | cons c cs =>
    simp only [noLeadWS, Bool.not_eq_true'] at h
    simp [dropWS, h]

theorem dropWS_append_last {c : Char} (h : c.isWhitespace = false) (m : List Char) :
    dropWS (m ++ [c]) = dropWS m ++ [c] := by
  induction m with
  | nil => simp [dropWS, h]
  | cons d ds ih =>
    by_cases hd : d.isWhitespace = true
    · simp [dropWS, hd, ih]
    · simp only [Bool.not_eq_true] at hd
      simp [dropWS, hd]

theorem noLeadWS_back {l : List Char} (h : noLeadWS l = true) :
    noLeadWS ((dropWS l.reverse).reverse) = true := by
  cases l with
  | nil => rfl
  | cons c cs =>
    simp only [noLeadWS, Bool.not_eq_true'] at h
    rw [List.reverse_cons, dropWS_append_last h, List.reverse_append]
    simp [noLeadWS, h]

theorem trimChars_idem (l : List Char) : trimChars (trimChars l) = trimChars l := by
  have hout : noLeadWS ((dropWS (dropWS l).reverse).reverse) = true :=
    noLeadWS_back (noLeadWS_dropWS l)
  show trimChars ((dropWS (dropWS l).reverse).reverse) = _
  unfold trimChars
  rw [dropWS_of_noLead hout, List.reverse_reverse,
    dropWS_of_noLead (noLeadWS_dropWS _)]

theorem noLeadWS_of_all {l : List Char} (h : ∀ c ∈ l, c.isWhitespace = false) :
    noLeadWS l = true := by
  cases l with
  | nil => rfl
  | cons c cs => simp [noLeadWS, h c (List.mem_cons_self c cs)]

theorem trimChars_of_noWS {l : List Char} (h : ∀ c ∈ l, c.isWhitespace = false) :
    trimChars l = l := by
  unfold trimChars
  rw [dropWS_of_noLead (noLeadWS_of_all h),
    dropWS_of_noLead (noLeadWS_of_all (fun c hc => h c (List.mem_reverse.mp hc))),
    List.reverse_reverse]

theorem trimStr_idem (s : String) : trimStr (trimStr s) = trimStr s := by
  unfold trimStr
  rw [show (String.mk (trimChars s.toList)).toList = trimChars s.toList from rfl,
    trimChars_idem]

theorem stripCell_idem (v : Value) : stripCell (stripCell v) = stripCell v := by
  unfold stripCell
  rw [show valToStr (Value.str (trimStr (valToStr v))) = trimStr (valToStr v) from rfl,
    trimStr_idem]

/-! ## Lemmas on lowercasing and run-squashing -/

theorem toLower_idem (c : Char) : c.toLower.toLower = c.toLower := by
  by_cases h : c.toNat ≥ 65 ∧ c.toNat ≤ 90
  · have h1 : c.toLower = Char.ofNat (c.toNat + 32) := by
      simp only [Char.toLower]
      rw [if_pos h]
    rw [h1]
    obtain ⟨ha, hb⟩ := h
    set n := c.toNat with hn
    clear_value n
    interval_cases n <;> decide
  · have h1 : c.toLower = c := by
      simp only [Char.toLower]
      rw [if_neg h]
    rw [h1, h1]

theorem mem_squashAux_word (l : List Char) :
    ∀ (b : Bool) (c : Char), c ∈ squashAux b l → isWordChar c = true := by
  induction l with
  | nil => intro b c h; simp [squashAux] at h
  | cons d ds ih =>
    intro b c h
    simp only [squashAux] at h
    by_cases hd : isWordChar d = true
    · rw [if_pos hd] at h
      rcases List.mem_cons.mp h with h1 | h1
      · rw [h1]; exact hd
      · exact ih false c h1
    · rw [if_neg hd] at h
      cases b with
      | true => simpa using ih true c h
      | false =>
        simp only [Bool.false_eq_true, if_false] at h
        rcases List.mem_cons.mp h with h1 | h1
        · rw [h1]; decide
        · exact ih true c h1

theorem mem_squashAux_orig (l : List Char) :
    ∀ (b : Bool) (c : Char), c ∈ squashAux b l → c = '_' ∨ c ∈ l := by
  induction l with
  | nil => intro b c h; simp [squashAux] at h
  | cons d ds ih =>
    intro b c h
    simp only [squashAux] at h
    by_cases hd : isWordChar d = true
    · rw [if_pos hd] at h
      rcases List.mem_cons.mp h with h1 | h1
      · right; rw [h1]; exact List.mem_cons_self d ds
      · rcases ih false c h1 with h2 | h2
        · left; exact h2
        · right; exact List.mem_cons_of_mem d h2
    · rw [if_neg hd] at h
      cases b with
      | true =>
        simp only [if_true] at h
        rcases ih true c h with h2 | h2
        · left; exact h2
        · right; exact List.mem_cons_of_mem d h2
      | false =>
        simp only [Bool.false_eq_true, if_false] at h
        rcases List.mem_cons.mp h with h1 | h1
        · left; exact h1
        · rcases ih true c h1 with h2 | h2
          · left; exact h2
          · right; exact List.mem_cons_of_mem d h2

theorem squashAux_of_word {l : List Char} (h : ∀ c ∈ l, isWordChar c = true) :
    ∀ b, squashAux b l = l := by
  induction l with
  | nil => intro b; rfl
  | cons d ds ih =>
    intro b
    have hd : isWordChar d = true := h d (List.mem_cons_self d ds)
    simp only [squashAux, if_pos hd]
    rw [ih (fun c hc => h c (List.mem_cons_of_mem d hc)) false]

theorem word_not_ws {c : Char} (h : isWordChar c = true) : c.isWhitespace = false := by
  cases hw : c.isWhitespace
  · rfl
  · exfalso
    have h4 : c = ' ' ∨ c = '\t' ∨ c = '\r' ∨ c = '\n' := by
      simpa [Char.isWhitespace, or_assoc] using hw
    rcases h4 with h1 | h1 | h1 | h1 <;> rw [h1] at h <;> exact absurd h (by decide)

theorem map_id_of_mem {α : Type} {l : List α} {f : α → α} (h : ∀ a ∈ l, f a = a) :
    l.map f = l := by
  induction l with
  | nil => rfl
  | cons a as ih =>
    simp only [List.map_cons, h a (List.mem_cons_self a as)]
    rw [ih (fun b hb => h b (List.mem_cons_of_mem a hb))]

theorem normalizeName_idem (s : String) :
    normalizeName (normalizeName s) = normalizeName s := by
  unfold normalizeName
  set out := squashAux false ((trimChars s.toList).map Char.toLower) with hout
  have hword : ∀ c ∈ out, isWordChar c = true := fun c hc =>
    mem_squashAux_word _ _ _ hc
  have htrim : trimChars out = out :=
    trimChars_of_noWS (fun c hc => word_not_ws (hword c hc))
  have hlow : out.map Char.toLower = out := by
    apply map_id_of_mem
    intro c hc
    rcases mem_squashAux_orig _ _ _ hc with h1 | h1
    · rw [h1]; decide
    · rcases List.mem_map.mp h1 with ⟨d, _, hd⟩
      rw [← hd]; exact toLower_idem d
  rw [show (String.mk out).toList = out from rfl, htrim, hlow,
    squashAux_of_word hword false]

/-! ## Lemmas on row-level selection -/

theorem mapSel_congr {q q' : String → Bool} (f : Value → Value) :
    ∀ (cols : List String) (r : List Value), (∀ c ∈ cols, q c = q' c) →
      mapSel q f cols r = mapSel q' f cols r := by
  intro cols
  induction cols with
  | nil => intro r _; cases r <;> rfl
  | cons c cs ih =>
    intro r h
    cases r with
    | nil => rfl
    | cons v vs =>
      simp only [mapSel]
      rw [h c (List.mem_cons_self c cs),
        ih vs (fun d hd => h d (List.mem_cons_of_mem c hd))]

theorem rowSel_congr {q q' : String → Bool} (p : Value → Bool) :
    ∀ (cols : List String) (r : List Value), (∀ c ∈ cols, q c = q' c) →
      rowSel q p cols r = rowSel q' p cols r := by
  intro cols
  induction cols with
  | nil => intro r _; cases r <;> rfl
  | cons c cs ih =>
    intro r h
    cases r with
    | nil => rfl
    | cons v vs =>
      simp only [rowSel]
      rw [h c (List.mem_cons_self c cs),
        ih vs (fun d hd => h d (List.mem_cons_of_mem c hd))]

theorem mapSel_of_false {q : String → Bool} (f : Value → Value) :
    ∀ (cols : List String) (r : List Value), (∀ c ∈ cols, q c = false) →
      mapSel q f cols r = r := by
  intro cols
  induction cols with
  | nil => intro r _; cases r <;> rfl
  | cons c cs ih =>
    intro r h
    cases r with
    | nil => rfl
    | cons v vs =>
      simp only [mapSel]
      rw [h c (List.mem_cons_self c cs)]
      simp only [Bool.false_eq_true, if_false]
      rw [ih vs (fun d hd => h d (List.mem_cons_of_mem c hd))]

theorem rowSel_of_false {q : String → Bool} (p : Value → Bool) :
    ∀ (cols : List String) (r : List Value), (∀ c ∈ cols, q c = false) →
      rowSel q p cols r = true := by
  intro cols
  induction cols with
  | nil => intro r _; cases r <;> rfl
  | cons c cs ih =>
    intro r h
    cases r with
    | nil => rfl
    | cons v vs =>
      simp only [rowSel]
      rw [h c (List.mem_cons_self c cs)]
      simp only [Bool.false_eq_true, if_false, Bool.true_and]
      exact ih vs (fun d hd => h d (List.mem_cons_of_mem c hd))

theorem mapSel_mapSel {f : Value → Value} (hf : ∀ v, f (f v) = f v)
    (p q : String → Bool) :
    ∀ (cols : List String) (r : List Value),
      mapSel p f cols (mapSel q f cols r)
        = mapSel (fun c => q c || p c) f cols r := by
  intro cols
  induction cols with
  | nil => intro r; cases r <;> rfl
  | cons c cs ih =>
    intro r
    cases r with
    | nil => rfl
    | cons v vs =>
      simp only [mapSel]
      rw [ih vs]
      by_cases hq : q c = true
      · by_cases hp : p c = true <;> simp [hq, hp, hf]
      · simp only [Bool.not_eq_true] at hq
        by_cases hp : p c = true <;> simp [hq, hp]

theorem rowSel_weaken {q : String → Bool} {p p' : Value → Bool}
    (hp : ∀ v, p v = true → p' v = true) :
    ∀ (cols : List String) (r : List Value),
      rowSel q p cols r = true → rowSel q p' cols r = true := by
  intro cols
  induction cols with
  | nil => intro r _; cases r <;> rfl
  | cons c cs ih =>
    intro r h
    cases r with
    | nil => rfl
    | cons v vs =>
      simp only [rowSel, Bool.and_eq_true] at h ⊢
      refine ⟨?_, ih vs h.2⟩
      by_cases hq : q c = true
      · rw [if_pos hq] at h ⊢
        exact hp v h.1
      · rw [if_neg hq]

theorem mapSel_id_of_sel {q : String → Bool} {p : Value → Bool} {f : Value → Value}
    (hpf : ∀ v, p v = true → f v = v) :
    ∀ (cols : List String) (r : List Value),
      rowSel q p cols r = true → mapSel q f cols r = r := by
  intro cols
  induction cols with
  | nil => intro r _; cases r <;> rfl
  | cons c cs ih =>
    intro r h
    cases r with
    | nil => rfl
    | cons v vs =>
      simp only [rowSel, Bool.and_eq_true] at h
      simp only [mapSel]
      rw [ih vs h.2]
      by_cases hq : q c = true
      · rw [if_pos hq] at h ⊢
        rw [hpf v h.1]
      · rw [if_neg hq]

theorem rowSel_isNum_of_mapSel {q : String → Bool} {f : Value → Value}
    (hf : ∀ v, (f v).isNan = false → (f v).isNum = true) :
    ∀ (cols : List String) (r : List Value),
      rowSel q (fun v => !v.isNan) cols (mapSel q f cols r) = true →
        rowSel q Value.isNum cols (mapSel q f cols r) = true := by
  intro cols
  induction cols with
  | nil => intro r _; cases r <;> rfl
  | cons c cs ih =>
    intro r h
    cases r with
    | nil => rfl
    | cons v vs =>
      simp only [mapSel, rowSel, Bool.and_eq_true] at h ⊢
      refine ⟨?_, ih vs h.2⟩
      by_cases hq : q c = true
      · rw [if_pos hq] at h ⊢
        rw [if_pos hq] at h ⊢
        simp only [Bool.not_eq_true'] at h
        exact hf v h.1
      · rw [if_neg hq]

/-! ## Characterising the column-loop folds -/

theorem foldl_setColF_cols (f : Value → Value) :
    ∀ (names : List String) (df : Frame),
      (names.foldl (setColF f) df).cols = df.cols := by
  intro names
  induction names with
  | nil => intro df; rfl
  | cons n ns ih => intro df; rw [List.foldl_cons, ih]; rfl

theorem foldl_setColF_rows (f : Value → Value) :
    ∀ (names : List String) (df : Frame),
      (names.foldl (setColF f) df).rows
        = df.rows.map
            (fun r => names.foldl (fun r n => mapSel (fun c => c == n) f df.cols r) r) := by
  intro names
  induction names with
  | nil => intro df; simp
  | cons n ns ih =>
    intro df
    rw [List.foldl_cons, ih,
      show (setColF f df n).rows = df.rows.map (fun r => mapSel (fun c => c == n) f df.cols r) from rfl,
      List.map_map]
    rfl

theorem rowFold_eq_mapSel {f : Value → Value} (hf : ∀ v, f (f v) = f v) :
    ∀ (names cols : List String) (r : List Value),
      names.foldl (fun r n => mapSel (fun c => c == n) f cols r) r
        = mapSel (fun c => decide (c ∈ names)) f cols r := by
  intro names
  induction names with
  | nil =>
    intro cols r
    rw [List.foldl_nil, mapSel_of_false]
    intro c _
    simp
  | cons n ns ih =>
    intro cols r
    rw [List.foldl_cons, ih, mapSel_mapSel hf]
    apply mapSel_congr
    intro c _
    by_cases h : c = n
    · subst h; simp
    · simp [h, List.mem_cons]

theorem setColF_rows (f : Value → Value) (df : Frame) (name : String) :
    (setColF f df name).rows
      = df.rows.map (fun r => mapSel (fun c => c == name) f df.cols r) := rfl

theorem filterColGE_rows (df : Frame) (name : String) :
    (filterColGE df name).rows
      = df.rows.filter (fun r => rowSel (fun c => c == name) geZero df.cols r) := rfl

theorem dropnaSubset_rows (df : Frame) (required : List String) :
    (dropnaSubset df required).rows
      = df.rows.filter
          (fun r => rowSel (fun c => decide (c ∈ required)) (fun v => !v.isNan) df.cols r) := rfl

theorem frame_ext {a b : Frame} (h1 : a.cols = b.cols) (h2 : a.rows = b.rows) :
    a = b := by
  cases a; cases b
  simp only at h1 h2
  rw [h1, h2]

theorem rowSel_and (q₁ q₂ : String → Bool) (p : Value → Bool) :
    ∀ (cols : List String) (r : List Value),
      (rowSel q₁ p cols r && rowSel q₂ p cols r)
        = rowSel (fun c => q₁ c || q₂ c) p cols r := by
  intro cols
  induction cols with
  | nil => intro r; cases r <;> rfl
  | cons c cs ih =>
    intro r
    cases r with
    | nil => rfl
    | cons v vs =>
      simp only [rowSel]
      rw [← ih vs]
      by_cases h1 : q₁ c = true <;> by_cases h2 : q₂ c = true <;>
        simp [h1, h2] <;>
        cases p v <;> cases rowSel q₁ p cs vs <;> cases rowSel q₂ p cs vs <;> simp

theorem foldl_filterColGE_cols :
    ∀ (names : List String) (df : Frame),
      (names.foldl filterColGE df).cols = df.cols := by
  intro names
  induction names with
  | nil => intro df; rfl
  | cons n ns ih => intro df; rw [List.foldl_cons, ih]; rfl

theorem foldl_filterColGE_rows :
    ∀ (names : List String) (df : Frame),
      (names.foldl filterColGE df).rows
        = df.rows.filter
            (fun r => names.all (fun n => rowSel (fun c => c == n) geZero df.cols r)) := by
  intro names
  induction names with
  | nil => intro df; simp
  | cons n ns ih =>
    intro df
    rw [List.foldl_cons, ih, filterColGE_rows, List.filter_filter]
    apply List.filter_congr
    intro r _
    simp only [List.all_cons]
    rw [Bool.and_comm]
    rfl

theorem all_rowSel_eq_rowSel_mem (p : Value → Bool) :
    ∀ (names cols : List String) (r : List Value),
      names.all (fun n => rowSel (fun c => c == n) p cols r)
        = rowSel (fun c => decide (c ∈ names)) p cols r := by
  intro names
  induction names with
  | nil =>
    intro cols r
    rw [List.all_nil, Eq.comm]
    apply rowSel_of_false
    intro c _
    simp
  | cons n ns ih =>
    intro cols r
    rw [List.all_cons, ih, rowSel_and]
    apply rowSel_congr
    intro c _
    by_cases h : c = n
    · subst h; simp
    · simp [h, List.mem_cons]

/-! ## Translating label membership into the classification predicates -/

theorem decide_mem_filter_of_mem {c : String} {l : List String} (p : String → Bool)
    (hc : c ∈ l) : decide (c ∈ l.filter p) = p c := by
  cases hp : p c
  · simp [List.mem_filter, hp]
  · simp [List.mem_filter, hc, hp]

theorem decide_mem_append (c : String) (l₁ l₂ : List String) :
    decide (c ∈ l₁ ++ l₂) = (decide (c ∈ l₁) || decide (c ∈ l₂)) := by
  by_cases h1 : c ∈ l₁ <;> by_cases h2 : c ∈ l₂ <;> simp [h1, h2]

theorem decide_mem_dedup (c : String) (l : List String) :
    decide (c ∈ l.dedup) = decide (c ∈ l) := by
  simp [List.mem_dedup]

theorem matched_of_cols (df : Frame) :
    ∀ c ∈ df.cols, decide (c ∈ priceColsOf df ++ qtyColsOf df) = isMatchedName c := by
  intro c hc
  rw [decide_mem_append]
  unfold priceColsOf qtyColsOf
  rw [decide_mem_filter_of_mem isPriceName hc, decide_mem_filter_of_mem isQtyName hc]
  rfl

/-! ## Properties of the numeric coercion -/

theorem toNumeric_idem (v : Value) : toNumeric (toNumeric v) = toNumeric v := by
  cases v with
  | str s =>
    simp only [toNumeric]
    cases parseNum s <;> rfl
  | num q => rfl
  | nan => rfl

theorem toNumeric_num_of_not_nan (v : Value) (h : (toNumeric v).isNan = false) :
    (toNumeric v).isNum = true := by
  cases v with
  | str s =>
    cases hp : parseNum s
    · exfalso
      simp [toNumeric, hp, Value.isNan] at h
    · simp [toNumeric, hp, Value.isNum]
  | num q => rfl
  | nan => exact absurd h (by simp [toNumeric, Value.isNan])

theorem toNumeric_id_of_isNum (v : Value) (h : v.isNum = true) : toNumeric v = v := by
  cases v with
  | str s => exact absurd h (by simp [Value.isNum])
  | num q => rfl
  | nan => exact absurd h (by simp [Value.isNum])

theorem isNan_false_of_isNum (v : Value) (h : v.isNum = true) : v.isNan = false := by
  cases v with
  | str s => rfl
  | num q => rfl
  | nan => exact absurd h (by simp [Value.isNum])

theorem numericCoerce_cols (df : Frame) : (numericCoerce df).cols = df.cols :=
  foldl_setColF_cols toNumeric _ df

theorem numericCoerce_rows (df : Frame) :
    (numericCoerce df).rows
      = df.rows.map (fun r => mapSel isMatchedName toNumeric df.cols r) := by
  unfold numericCoerce
  rw [foldl_setColF_rows]
  have h1 : ∀ r : List Value,
      (priceColsOf df ++ qtyColsOf df).foldl
          (fun r n => mapSel (fun c => c == n) toNumeric df.cols r) r
        = mapSel isMatchedName toNumeric df.cols r := by
    intro r
    rw [rowFold_eq_mapSel toNumeric_idem]
    exact mapSel_congr toNumeric df.cols r (matched_of_cols df)
  simp only [h1]

/-! ## Properties of `handle_missing_values` -/

theorem handle_missing_values_cols (df : Frame) :
    (handle_missing_values df).cols = df.cols := by
  unfold handle_missing_values
  by_cases h : ((priceColsOf df ++ qtyColsOf df).dedup).isEmpty = true
  · rw [if_pos h]
    exact numericCoerce_cols df
  · rw [if_neg h]
    show (numericCoerce df).cols = df.cols
    exact numericCoerce_cols df

/-- No column matches either rule when the dedup of the matched-name
list is empty; then every classification predicate is false on the
frame's columns. -/
theorem matched_false_of_isEmpty (df : Frame)
    (h : ((priceColsOf df ++ qtyColsOf df).dedup).isEmpty = true) :
    ∀ c ∈ df.cols, isMatchedName c = false := by
  intro c hc
  have h0 : priceColsOf df ++ qtyColsOf df = [] :=
    (List.dedup_eq_nil _).mp (List.isEmpty_iff.mp h)
  have hp : priceColsOf df = [] := (List.append_eq_nil.mp h0).1
  have hq : qtyColsOf df = [] := (List.append_eq_nil.mp h0).2
  have h1 : isPriceName c = false := by
    have := List.filter_eq_nil_iff.mp hp c hc
    simpa using this
  have h2 : isQtyName c = false := by
    have := List.filter_eq_nil_iff.mp hq c hc
    simpa using this
  simp [isMatchedName, h1, h2]

/-- Every row surviving `handle_missing_values` holds a genuine number
in every price/quantity-classified column. -/
theorem handle_matched_isNum (df : Frame) :
    ∀ r ∈ (handle_missing_values df).rows,
      rowSel isMatchedName Value.isNum df.cols r = true := by
  intro r hr
  unfold handle_missing_values at hr
  by_cases hreq : ((priceColsOf df ++ qtyColsOf df).dedup).isEmpty = true
  · rw [if_pos hreq] at hr
    exact rowSel_of_false Value.isNum df.cols r (matched_false_of_isEmpty df hreq)
  · rw [if_neg hreq, dropnaSubset_rows] at hr
    obtain ⟨hmem, hpred⟩ := List.mem_filter.mp hr
    rw [numericCoerce_rows df] at hmem
    obtain ⟨r0, _, hr0eq⟩ := List.mem_map.mp hmem
    rw [numericCoerce_cols df] at hpred
    have htrans : ∀ c ∈ df.cols,
        (decide (c ∈ (priceColsOf df ++ qtyColsOf df).dedup) : Bool) = isMatchedName c := by
      intro c hc
      rw [decide_mem_dedup, matched_of_cols df c hc]
    rw [rowSel_congr _ df.cols r htrans] at hpred
    rw [← hr0eq] at hpred ⊢
    exact rowSel_isNum_of_mapSel toNumeric_num_of_not_nan df.cols r0 hpred

/-! ## Properties of `remove_invalid_rows` -/

theorem remove_invalid_rows_cols (df : Frame) :
    (remove_invalid_rows df).cols = df.cols := by
  unfold remove_invalid_rows
  rw [foldl_filterColGE_cols, foldl_filterColGE_cols]

theorem remove_invalid_rows_rows (df : Frame) :
    (remove_invalid_rows df).rows
      = df.rows.filter (fun r => rowSel isMatchedName geZero df.cols r) := by
  unfold remove_invalid_rows
  rw [foldl_filterColGE_rows]
  simp only [foldl_filterColGE_cols]
  rw [foldl_filterColGE_rows, List.filter_filter]
  apply List.filter_congr
  intro r _
  rw [all_rowSel_eq_rowSel_mem, all_rowSel_eq_rowSel_mem, rowSel_and]
  apply rowSel_congr
  intro c hc
  have h1 := matched_of_cols df c hc
  rw [decide_mem_append] at h1
  rw [← h1, Bool.or_comm]

/-! ## Idempotence of `handle_missing_values` -/

/-- A frame all of whose matched cells are genuine numbers is a fixed
point of `handle_missing_values`. -/
theorem handle_fixed (u : Frame)
    (hnum : ∀ r ∈ u.rows, rowSel isMatchedName Value.isNum u.cols r = true) :
    handle_missing_values u = u := by
  unfold handle_missing_values
  have hco : numericCoerce u = u := by
    apply frame_ext (numericCoerce_cols u)
    rw [numericCoerce_rows]
    apply map_id_of_mem
    intro r hr
    exact mapSel_id_of_sel toNumeric_id_of_isNum u.cols r (hnum r hr)
  by_cases h : ((priceColsOf u ++ qtyColsOf u).dedup).isEmpty = true
  · rw [if_pos h]
    exact hco
  · rw [if_neg h, hco]
    refine frame_ext rfl ?_
    rw [dropnaSubset_rows]
    apply List.filter_eq_self.mpr
    intro r hr
    have h1 := @rowSel_weaken isMatchedName Value.isNum (fun v => !v.isNan)
      (fun v hv => by show (!v.isNan) = true; rw [isNan_false_of_isNum v hv]; rfl)
      u.cols r (hnum r hr)
    have htrans : ∀ c ∈ u.cols,
        (decide (c ∈ (priceColsOf u ++ qtyColsOf u).dedup) : Bool) = isMatchedName c := by
      intro c hc
      rw [decide_mem_dedup, matched_of_cols u c hc]
    rw [rowSel_congr _ u.cols r htrans]
    exact h1

/-! ## Properties of `strip_text_columns` -/

theorem strip_text_columns_cols (df : Frame) (oc : Option (List String)) :
    (strip_text_columns df oc).cols = df.cols :=
  foldl_setColF_cols stripCell _ df

theorem strip_text_columns_rows (df : Frame) (oc : Option (List String)) :
    (strip_text_columns df oc).rows
      = df.rows.map
          (fun r => mapSel (fun c => decide (c ∈ selNames df oc)) stripCell df.cols r) := by
  unfold strip_text_columns
  rw [foldl_setColF_rows]
  simp only [rowFold_eq_mapSel stripCell_idem]

/-! ## Heap lemmas -/

theorem getD_set_ne {α : Type} (d : α) :
    ∀ (l : List α) (i j : Nat) (a : α), i ≠ j →
      (l.set i a).getD j d = l.getD j d := by
  intro l
  induction l with
  | nil => intro i j a _; rfl
  | cons x xs ih =>
    intro i j a h
    cases i with
    | zero =>
      cases j with
      | zero => exact absurd rfl h
      | succ j => rfl
    | succ i =>
      cases j with
      | zero => rfl
      | succ j =>
        show (xs.set i a).getD j d = xs.getD j d
        exact ih i j a (fun hh => h (by rw [hh]))

theorem getD_set_self {α : Type} (d : α) :
    ∀ (l : List α) (i : Nat) (a : α), i < l.length →
      (l.set i a).getD i d = a := by
  intro l
  induction l with
  | nil => intro i a h; exact absurd h (by simp)
  | cons x xs ih =>
    intro i a h
    cases i with
    | zero => rfl
    | succ i =>
      show (xs.set i a).getD i d = a
      exact ih i a (by simpa using h)

theorem getD_append_lt {α : Type} (d : α) :
    ∀ (l m : List α) (j : Nat), j < l.length →
      (l ++ m).getD j d = l.getD j d := by
  intro l
  induction l with
  | nil => intro m j h; exact absurd h (by simp)
  | cons x xs ih =>
    intro m j h
    cases j with
    | zero => rfl
    | succ j =>
      show (xs ++ m).getD j d = xs.getD j d
      exact ih m j (by simpa using h)

theorem getD_append_len {α : Type} (d : α) :
    ∀ (l : List α) (a : α), (l ++ [a]).getD l.length d = a := by
  intro l
  induction l with
  | nil => intro a; rfl
  | cons x xs ih => intro a; exact ih a

/-- Running a stage body never touches heap cells other than the one
bound to `df_clean`, only grows the heap, moves the binding only
forward, and leaves the value of the body's pure composition in the
cell finally bound. -/
theorem runOps_spec :
    ∀ (ops : List Op) (h : Heap) (r : Nat), r < h.length →
      (runOps ops (h, r)).2 < (runOps ops (h, r)).1.length
      ∧ h.length ≤ (runOps ops (h, r)).1.length
      ∧ r ≤ (runOps ops (h, r)).2
      ∧ (∀ j, j < h.length → j ≠ r →
          (runOps ops (h, r)).1.getD j Frame.empty = h.getD j Frame.empty)
      ∧ (runOps ops (h, r)).1.getD (runOps ops (h, r)).2 Frame.empty
          = applyOps ops (h.getD r Frame.empty) := by
  intro ops
  induction ops with
  | nil =>
    intro h r hr
    exact ⟨hr, Nat.le_refl _, Nat.le_refl _, fun j _ _ => rfl, rfl⟩
  | cons op ops ih =>
    cases op with
    | mutate f =>
      intro h r hr
      simp only [runOps, applyOps]
      have hlen : (h.set r (f (h.getD r Frame.empty))).length = h.length :=
        List.length_set h r _
      have hr' : r < (h.set r (f (h.getD r Frame.empty))).length := by
        rw [hlen]; exact hr
      obtain ⟨a, b, c, d, e⟩ := ih (h.set r (f (h.getD r Frame.empty))) r hr'
      refine ⟨a, ?_, c, ?_, ?_⟩
      · rw [← hlen]; exact b
      · intro j hj hjr
        rw [d j (by rw [hlen]; exact hj) hjr,
          getD_set_ne Frame.empty h r j _ (fun hh => hjr hh.symm)]
      · rw [e, getD_set_self Frame.empty h r _ hr]
    | rebind f =>
      intro h r hr
      simp only [runOps, applyOps]
      have hlen : (h ++ [f (h.getD r Frame.empty)]).length = h.length + 1 := by simp
      have hr' : h.length < (h ++ [f (h.getD r Frame.empty)]).length := by
        rw [hlen]; omega
      obtain ⟨a, b, c, d, e⟩ := ih (h ++ [f (h.getD r Frame.empty)]) h.length hr'
      refine ⟨a, ?_, ?_, ?_, ?_⟩
      · omega
      · omega
      · intro j hj hjr
        rw [d j (by rw [hlen]; omega) (by omega)]
        exact getD_append_lt Frame.empty h _ j hj
      · rw [e, getD_append_len]

theorem applyOps_append :
    ∀ (l1 l2 : List Op) (t : Frame),
      applyOps (l1 ++ l2) t = applyOps l2 (applyOps l1 t) := by
  intro l1
  induction l1 with
  | nil => intro l2 t; rfl
  | cons op ops ih =>
    intro l2 t
    cases op with
    | mutate f => exact ih l2 (f t)
    | rebind f => exact ih l2 (f t)

theorem applyOps_map_mutate (g : Frame → String → Frame) :
    ∀ (names : List String) (t : Frame),
      applyOps (names.map (fun n => Op.mutate (fun t => g t n))) t = names.foldl g t := by
  intro names
  induction names with
  | nil => intro t; rfl
  | cons n ns ih => intro t; exact ih (g t n)

theorem applyOps_map_rebind (g : Frame → String → Frame) :
    ∀ (names : List String) (t : Frame),
      applyOps (names.map (fun n => Op.rebind (fun t => g t n))) t = names.foldl g t := by
  intro names
  induction names with
  | nil => intro t; rfl
  | cons n ns ih => intro t; exact ih (g t n)

theorem applyOps_clean (df : Frame) :
    applyOps (cleanColumnNamesOps df) df = clean_column_names df := rfl

theorem applyOps_strip (df : Frame) (oc : Option (List String)) :
    applyOps (stripTextOps df oc) df = strip_text_columns df oc :=
  applyOps_map_mutate (setColF stripCell) (selNames df oc) df

theorem applyOps_handle (df : Frame) :
    applyOps (handleMissingOps df) df = handle_missing_values df := by
  unfold handleMissingOps handle_missing_values
  rw [applyOps_append, applyOps_map_mutate]
  by_cases hc : ((priceColsOf df ++ qtyColsOf df).dedup).isEmpty = true
  · rw [if_pos hc, if_pos hc]
    rfl
  · rw [if_neg hc, if_neg hc]
    rfl

theorem applyOps_remove (df : Frame) :
    applyOps (removeInvalidOps df) df = remove_invalid_rows df := by
  unfold removeInvalidOps remove_invalid_rows
  rw [applyOps_append, applyOps_map_rebind, applyOps_map_rebind]

/-- A stage leaves the input cell untouched, returns a reference other
than the input's, and that reference holds the pure composition of the
stage body applied to the input's value. -/
theorem stageRef_spec (ops : Frame → List Op) (h : Heap) (i : Nat) (hi : i < h.length) :
    (stageRef ops h i).1.getD i Frame.empty = h.getD i Frame.empty
    ∧ (stageRef ops h i).2 ≠ i
    ∧ (stageRef ops h i).1.getD (stageRef ops h i).2 Frame.empty
        = applyOps (ops (h.getD i Frame.empty)) (h.getD i Frame.empty) := by
  have h0 : h.length < (h ++ [h.getD i Frame.empty]).length := by simp
  obtain ⟨a, b, c, d, e⟩ :=
    runOps_spec (ops (h.getD i Frame.empty)) (h ++ [h.getD i Frame.empty]) h.length h0
  refine ⟨?_, ?_, ?_⟩
  · show (runOps _ _).1.getD i Frame.empty = _
    rw [d i (by simp; omega) (by omega)]
    exact getD_append_lt Frame.empty h _ i hi
  · show (runOps _ _).2 ≠ i
    omega
  · show (runOps _ _).1.getD (runOps _ _).2 Frame.empty = _
    rw [e, getD_append_len]

/-! ## The claims -/

/-- C1: the Numeric Sanitizer parses every value of every matched
column (name containing "price", or "qty"/"quantity") as a number,
turns parse failures into the missing marker, and then drops every row
with a missing marker in any matched column, so every matched column of
its output holds only genuine non-missing numbers; in particular a row
with `price="N/A"` is dropped regardless of its quantity value. -/
theorem claim_C1 :
    (∀ (df : Frame), ∀ r ∈ (handle_missing_values df).rows,
        rowSel isMatchedName Value.isNum df.cols r = true)
    ∧ (∀ q : Value,
        (handle_missing_values ⟨["price", "qty"], [[Value.str "N/A", q]]⟩).rows = []) := by
  constructor
  · exact handle_matched_isNum
  · intro q
    rfl

theorem claim_C1_witness :
    ([Value.num 2, Value.num 3]
        ∈ (handle_missing_values (Frame.mk ["price", "qty"] [[Value.num 2, Value.num 3]])).rows)
    ∧ rowSel isMatchedName Value.isNum
        (Frame.mk ["price", "qty"] [[Value.num 2, Value.num 3]]).cols
        [Value.num 2, Value.num 3] = true :=
  ⟨by decide,
    claim_C1.1 (Frame.mk ["price", "qty"] [[Value.num 2, Value.num 3]])
      [Value.num 2, Value.num 3] (by decide)⟩

/-- C2: a row survives the Range Filter iff its value in every
price-classified and every quantity-classified column is a non-negative
number; of the rows `(-5, 3)`, `(10, -1)`, `(10, 3)` only the third
survives. -/
theorem claim_C2 :
    (∀ (df : Frame) (r : List Value),
        r ∈ (remove_invalid_rows df).rows
          ↔ r ∈ df.rows ∧ rowSel isMatchedName geZero df.cols r = true)
    ∧ remove_invalid_rows
        ⟨["price", "qty"],
          [[Value.num (-5), Value.num 3], [Value.num 10, Value.num (-1)],
            [Value.num 10, Value.num 3]]⟩
      = ⟨["price", "qty"], [[Value.num 10, Value.num 3]]⟩ := by
  constructor
  · intro df r
    rw [remove_invalid_rows_rows]
    exact List.mem_filter
  · decide

/-- C3: the Column Normalizer renames each column by trimming
whitespace, lowercasing, and collapsing every maximal run of non-word
characters to one underscore, leaving the cell data untouched; the
header `["Product Name", " Unit-Price ", "QTY!"]` becomes
`["product_name", "unit_price", "qty_"]`. -/
theorem claim_C3 :
    (∀ df : Frame,
        (clean_column_names df).cols = df.cols.map normalizeName
        ∧ (clean_column_names df).rows = df.rows)
    ∧ ["Product Name", " Unit-Price ", "QTY!"].map normalizeName
        = ["product_name", "unit_price", "qty_"] := by
  constructor
  · intro df
    exact ⟨rfl, rfl⟩
  · decide

/-- C5: the two filtering stages only remove rows, preserving the
relative order of survivors (their row lists are sublists of their
input's row list, the numeric coercion being a per-row map), while the
non-filtering stages keep the row list in lockstep (identity for the
renaming stage, a per-row map for the trimming stage). -/
theorem claim_C5 :
    ∀ (df : Frame) (oc : Option (List String)),
      (clean_column_names df).rows = df.rows
      ∧ (strip_text_columns df oc).rows
          = df.rows.map
              (fun r => mapSel (fun c => decide (c ∈ selNames df oc)) stripCell df.cols r)
      ∧ (numericCoerce df).rows
          = df.rows.map (fun r => mapSel isMatchedName toNumeric df.cols r)
      ∧ List.Sublist (handle_missing_values df).rows (numericCoerce df).rows
      ∧ List.Sublist (remove_invalid_rows df).rows df.rows := by
  intro df oc
  refine ⟨rfl, strip_text_columns_rows df oc, numericCoerce_rows df, ?_, ?_⟩
  · unfold handle_missing_values
    by_cases h : ((priceColsOf df ++ qtyColsOf df).dedup).isEmpty = true
    · rw [if_pos h]
    · rw [if_neg h, dropnaSubset_rows]
      exact List.filter_sublist _
  · rw [remove_invalid_rows_rows]
    exact List.filter_sublist _

/-- C6: column-name normalisation is idempotent: applying
`clean_column_names` twice equals applying it once. -/
theorem claim_C6 :
    ∀ df : Frame, clean_column_names (clean_column_names df) = clean_column_names df := by
  intro df
  refine frame_ext ?_ rfl
  show (df.cols.map normalizeName).map normalizeName = df.cols.map normalizeName
  rw [List.map_map]
  have hfun : normalizeName ∘ normalizeName = normalizeName := funext normalizeName_idem
  rw [hfun]

/-- C7: `handle_missing_values` is idempotent (and, being a function of
its input, deterministic), including on columns whose name contains
both a price and a qty substring, which the coercion loop processes
under both rule sets. -/
theorem claim_C7 :
    (∀ df : Frame,
        handle_missing_values (handle_missing_values df) = handle_missing_values df)
    ∧ handle_missing_values ⟨["price_qty"], [[Value.str "4"], [Value.str "x"]]⟩
        = ⟨["price_qty"], [[Value.num 4]]⟩ := by
  constructor
  · intro df
    refine handle_fixed (handle_missing_values df) (fun r hr => ?_)
    rw [handle_missing_values_cols]
    exact handle_matched_isNum df r hr
  · decide

/-- C8: the Text Trimmer rewrites every cell of each selected column
(the explicit list, or the object-dtype columns when none is given) to
the trimmed text of the cell's textual representation — so every
affected cell, numeric or not, comes out as text; a column
`[" Apple ", "Banana", " pear"]` becomes `["Apple", "Banana", "pear"]`. -/
theorem claim_C8 :
    (∀ (df : Frame) (cs : List String),
        (strip_text_columns df (some cs)).cols = df.cols
        ∧ (strip_text_columns df (some cs)).rows
            = df.rows.map
                (fun r => mapSel (fun c => decide (c ∈ cs)) stripCell df.cols r))
    ∧ (∀ df : Frame,
        (strip_text_columns df none).rows
          = df.rows.map
              (fun r => mapSel (fun c => decide (c ∈ objColNames df)) stripCell df.cols r))
    ∧ (∀ v : Value, (stripCell v).isStr = true)
    ∧ strip_text_columns
        ⟨["name"], [[Value.str " Apple "], [Value.str "Banana"], [Value.str " pear"]]⟩ none
      = ⟨["name"], [[Value.str "Apple"], [Value.str "Banana"], [Value.str "pear"]]⟩ := by
  refine ⟨fun df cs => ⟨strip_text_columns_cols df _, strip_text_columns_rows df (some cs)⟩,
    fun df => strip_text_columns_rows df none, fun v => rfl, by decide⟩

/-- C9: on a header-only table (zero data rows) every stage returns a
zero-row table with the normalised header, and the whole pipeline
produces the empty table with the normalised header; all stages are
total functions, so no error can arise. -/
theorem claim_C9 :
    ∀ cols : List String,
      clean_column_names ⟨cols, []⟩ = ⟨cols.map normalizeName, []⟩
      ∧ strip_text_columns ⟨cols.map normalizeName, []⟩ none = ⟨cols.map normalizeName, []⟩
      ∧ handle_missing_values ⟨cols.map normalizeName, []⟩ = ⟨cols.map normalizeName, []⟩
      ∧ remove_invalid_rows ⟨cols.map normalizeName, []⟩ = ⟨cols.map normalizeName, []⟩
      ∧ clean_pipeline ⟨cols, []⟩ = ⟨cols.map normalizeName, []⟩ := by
  intro cols
  have hclean : clean_column_names ⟨cols, []⟩ = ⟨cols.map normalizeName, []⟩ := rfl
  have hstrip : strip_text_columns ⟨cols.map normalizeName, []⟩ none
      = ⟨cols.map normalizeName, []⟩ := by
    refine frame_ext (strip_text_columns_cols _ _) ?_
    rw [strip_text_columns_rows]
    rfl
  have hhandle : handle_missing_values ⟨cols.map normalizeName, []⟩
      = ⟨cols.map normalizeName, []⟩ := by
    refine frame_ext (handle_missing_values_cols _) ?_
    unfold handle_missing_values
    by_cases hc : ((priceColsOf (⟨cols.map normalizeName, []⟩ : Frame)
        ++ qtyColsOf ⟨cols.map normalizeName, []⟩).dedup).isEmpty = true
    · rw [if_pos hc, numericCoerce_rows]
      rfl
    · rw [if_neg hc, dropnaSubset_rows, numericCoerce_rows]
      rfl
  have hremove : remove_invalid_rows ⟨cols.map normalizeName, []⟩
      = ⟨cols.map normalizeName, []⟩ := by
    refine frame_ext (remove_invalid_rows_cols _) ?_
    rw [remove_invalid_rows_rows]
    rfl
  refine ⟨hclean, hstrip, hhandle, hremove, ?_⟩
  unfold clean_pipeline
  rw [hclean, hstrip, hhandle, hremove]

/-- C10: under automatic selection, a missing marker in an object-dtype
column becomes the literal text `"nan"` — a non-missing value distinct
from the marker and identical to what a genuine `"nan"` string yields,
so missingness does not survive the trimming stage in such columns. -/
theorem claim_C10 :
    (∀ df : Frame,
        (strip_text_columns df none).rows
          = df.rows.map
              (fun r => mapSel (fun c => decide (c ∈ objColNames df)) stripCell df.cols r))
    ∧ stripCell Value.nan = Value.str "nan"
    ∧ stripCell (Value.str "nan") = Value.str "nan"
    ∧ Value.str "nan" ≠ Value.nan
    ∧ strip_text_columns ⟨["note"], [[Value.nan], [Value.str "x"]]⟩ none
        = ⟨["note"], [[Value.str "nan"], [Value.str "x"]]⟩ := by
  refine ⟨fun df => strip_text_columns_rows df none, by decide, by decide, by decide, by decide⟩

/-- C4: each stage run over the heap leaves the heap cell of its input
frame unchanged, returns a reference distinct from the input's, and the
returned reference holds exactly the pure stage value of the input —
the copy-then-transform discipline of the source. -/
theorem claim_C4 :
    ∀ (h : Heap) (i : Nat) (oc : Option (List String)), i < h.length →
      ((clean_column_names_ref h i).1.getD i Frame.empty = h.getD i Frame.empty
        ∧ (clean_column_names_ref h i).2 ≠ i
        ∧ (clean_column_names_ref h i).1.getD (clean_column_names_ref h i).2 Frame.empty
            = clean_column_names (h.getD i Frame.empty))
      ∧ ((strip_text_columns_ref h oc i).1.getD i Frame.empty = h.getD i Frame.empty
        ∧ (strip_text_columns_ref h oc i).2 ≠ i
        ∧ (strip_text_columns_ref h oc i).1.getD (strip_text_columns_ref h oc i).2 Frame.empty
            = strip_text_columns (h.getD i Frame.empty) oc)
      ∧ ((handle_missing_values_ref h i).1.getD i Frame.empty = h.getD i Frame.empty
        ∧ (handle_missing_values_ref h i).2 ≠ i
        ∧ (handle_missing_values_ref h i).1.getD (handle_missing_values_ref h i).2 Frame.empty
            = handle_missing_values (h.getD i Frame.empty))
      ∧ ((remove_invalid_rows_ref h i).1.getD i Frame.empty = h.getD i Frame.empty
        ∧ (remove_invalid_rows_ref h i).2 ≠ i
        ∧ (remove_invalid_rows_ref h i).1.getD (remove_invalid_rows_ref h i).2 Frame.empty
            = remove_invalid_rows (h.getD i Frame.empty)) := by
  intro h i oc hi
  refine ⟨?_, ?_, ?_, ?_⟩
  · obtain ⟨a, b, c⟩ := stageRef_spec cleanColumnNamesOps h i hi
    exact ⟨a, b, by
      show (stageRef cleanColumnNamesOps h i).1.getD (stageRef cleanColumnNamesOps h i).2
          Frame.empty = _
      rw [c, applyOps_clean]⟩
  · obtain ⟨a, b, c⟩ := stageRef_spec (fun df => stripTextOps df oc) h i hi
    exact ⟨a, b, by
      show (stageRef (fun df => stripTextOps df oc) h i).1.getD
          (stageRef (fun df => stripTextOps df oc) h i).2 Frame.empty = _
      rw [c, applyOps_strip]⟩
  · obtain ⟨a, b, c⟩ := stageRef_spec handleMissingOps h i hi
    exact ⟨a, b, by
      show (stageRef handleMissingOps h i).1.getD (stageRef handleMissingOps h i).2
          Frame.empty = _
      rw [c, applyOps_handle]⟩
  · obtain ⟨a, b, c⟩ := stageRef_spec removeInvalidOps h i hi
    exact ⟨a, b, by
      show (stageRef removeInvalidOps h i).1.getD (stageRef removeInvalidOps h i).2
          Frame.empty = _
      rw [c, applyOps_remove]⟩

theorem claim_C4_witness :
    0 < ([Frame.mk ["price"] [[Value.num 1]]] : Heap).length
    ∧ (((clean_column_names_ref [Frame.mk ["price"] [[Value.num 1]]] 0).1.getD 0 Frame.empty
          = ([Frame.mk ["price"] [[Value.num 1]]] : Heap).getD 0 Frame.empty
        ∧ (clean_column_names_ref [Frame.mk ["price"] [[Value.num 1]]] 0).2 ≠ 0
        ∧ (clean_column_names_ref [Frame.mk ["price"] [[Value.num 1]]] 0).1.getD
            (clean_column_names_ref [Frame.mk ["price"] [[Value.num 1]]] 0).2 Frame.empty
            = clean_column_names (([Frame.mk ["price"] [[Value.num 1]]] : Heap).getD 0 Frame.empty))
      ∧ ((strip_text_columns_ref [Frame.mk ["price"] [[Value.num 1]]] none 0).1.getD 0 Frame.empty
          = ([Frame.mk ["price"] [[Value.num 1]]] : Heap).getD 0 Frame.empty
        ∧ (strip_text_columns_ref [Frame.mk ["price"] [[Value.num 1]]] none 0).2 ≠ 0
        ∧ (strip_text_columns_ref [Frame.mk ["price"] [[Value.num 1]]] none 0).1.getD
            (strip_text_columns_ref [Frame.mk ["price"] [[Value.num 1]]] none 0).2 Frame.empty
            = strip_text_columns (([Frame.mk ["price"] [[Value.num 1]]] : Heap).getD 0 Frame.empty) none)
      ∧ ((handle_missing_values_ref [Frame.mk ["price"] [[Value.num 1]]] 0).1.getD 0 Frame.empty
          = ([Frame.mk ["price"] [[Value.num 1]]] : Heap).getD 0 Frame.empty
        ∧ (handle_missing_values_ref [Frame.mk ["price"] [[Value.num 1]]] 0).2 ≠ 0
        ∧ (handle_missing_values_ref [Frame.mk ["price"] [[Value.num 1]]] 0).1.getD
            (handle_missing_values_ref [Frame.mk ["price"] [[Value.num 1]]] 0).2 Frame.empty
            = handle_missing_values (([Frame.mk ["price"] [[Value.num 1]]] : Heap).getD 0 Frame.empty))
      ∧ ((remove_invalid_rows_ref [Frame.mk ["price"] [[Value.num 1]]] 0).1.getD 0 Frame.empty
          = ([Frame.mk ["price"] [[Value.num 1]]] : Heap).getD 0 Frame.empty
        ∧ (remove_invalid_rows_ref [Frame.mk ["price"] [[Value.num 1]]] 0).2 ≠ 0
        ∧ (remove_invalid_rows_ref [Frame.mk ["price"] [[Value.num 1]]] 0).1.getD
            (remove_invalid_rows_ref [Frame.mk ["price"] [[Value.num 1]]] 0).2 Frame.empty
            = remove_invalid_rows (([Frame.mk ["price"] [[Value.num 1]]] : Heap).getD 0 Frame.empty))) :=
  ⟨by decide, claim_C4 [Frame.mk ["price"] [[Value.num 1]]] 0 none (by decide)⟩

end DataCleaning
